import Mathlib

/-!
Verification of the sparcur curation CLI (sparcur/cli.py, sparcur/core.py)
against its natural-language specification.  The Python code is shallowly
embedded: pure helpers become Lean functions on lists/naturals, and the
filesystem-mutating commands become functions from an abstract environment
to a trace of filesystem/process events.
-/

set_option maxHeartbeats 1000000

namespace Sparcur

/-! ### FileSize.hr (sparcur/core.py, class FileSize)

`hr` repeatedly divides by 1024 while the magnitude is at least 1024 and
formats with zero decimals ("%0.0f", round half to even), or with one
decimal and suffix "Yi" when all eight units are exhausted.  The running
float is represented exactly as `n / d` with `d` a power of 1024 (binary
floating point divides by 1024 exactly). -/

/-- Rounding of the nonnegative rational `n / d` to an integer, ties to
even, as performed by the "%0.0f" format. -/
def roundHalfEven (n d : Nat) : Nat :=
  let q := n / d
  let r := n % d
  if 2 * r < d then q
  else if d < 2 * r then q + 1
  else if q % 2 = 0 then q else q + 1

/-- "%0.0f" rendering of `n / d`. -/
def fmtZeroDec (n d : Nat) : String :=
  toString (roundHalfEven n d)

/-- "%.1f" rendering of `n / d` (only reached in the Yi fallback). -/
def fmtOneDec (n d : Nat) : String :=
  let t := roundHalfEven (10 * n) d
  toString (t / 10) ++ "." ++ toString (t % 10)

/-- The unit loop of `sizeof_fmt`: current value is `n / d`. -/
def hrLoop (n : Nat) : List String → Nat → String
  | [], d => fmtOneDec n d ++ "Yi"
  | u :: rest, d => if n < 1024 * d then fmtZeroDec n d ++ u else hrLoop n rest (1024 * d)

/-- `FileSize.hr`: human readable size; negative values render as "??". -/
def FileSize.hr (n : Int) : String :=
  if 0 ≤ n then hrLoop n.toNat ["", "K", "M", "G", "T", "P", "E", "Z"] 1
  else "??"

/-! ### python_identifier (sparcur/core.py)

Strings are modelled as `List Char`.  All `str.replace` calls in the source
have single-character patterns, so each is a character-wise bind. -/

/-- ASCII whitespace stripped by `str.strip`. -/
def pyIsSpace (c : Char) : Bool :=
  c = ' ' || c = '\t' || c = '\n' || c = '\r' || c = '\x0b' || c = '\x0c'

/-- `str.strip()`. -/
def pyStrip (s : List Char) : List Char :=
  ((s.dropWhile pyIsSpace).reverse.dropWhile pyIsSpace).reverse

/-- `str.replace(pat, rep)` for a single-character pattern. -/
def replaceChar (pat : Char) (rep : List Char) (s : List Char) : List Char :=
  s.flatMap (fun c => if c = pat then rep else [c])

/-- `str.lower()` on ASCII letters (codepoints 65-90 map to 97-122). -/
def pyLower (c : Char) : Char :=
  if 65 ≤ c.toNat ∧ c.toNat ≤ 90 then Char.ofNat (c.toNat + 32) else c

/-- `str.isdigit()` on ASCII digits. -/
def pyIsDigit (c : Char) : Bool :=
  '0' ≤ c && c ≤ '9'

/-- The replace/delete stages of `python_identifier` (core.py lines 56-69),
in source order, before the final lowercasing. -/
def pyIdentPre (s : List Char) : List Char :=
  let s1 := pyStrip s
  let s2 := replaceChar '(' [] s1
  let s3 := replaceChar ')' [] s2
  let s4 := replaceChar ' ' ['_'] s3
  let s5 := replaceChar '+' [] s4
  let s6 := replaceChar '…' [] s5
  let s7 := replaceChar '.' ['_'] s6
  let s8 := replaceChar ',' ['_'] s7
  let s9 := replaceChar '/' ['_'] s8
  let s10 := replaceChar '?' ['_'] s9
  let s11 := replaceChar '#' ("number".toList) s10
  let s12 := replaceChar '-' ['_'] s11
  let s13 := replaceChar ':' ['_'] s12
  replaceChar '\x83' [] s13

/-- The normalization pipeline of `python_identifier` before the
leading-digit check (core.py lines 56-71). -/
def pyIdentCore (s : List Char) : List Char :=
  (pyIdentPre s).map pyLower

/-- `python_identifier`.  `none` models the IndexError raised by `ident[0]`
when the normalized string is empty. -/
def pythonIdentifier (s : List Char) : Option (List Char) :=
  match pyIdentCore s with
  | [] => none
  | c :: _ => some (if pyIsDigit c then 'n' :: '_' :: pyIdentCore s else pyIdentCore s)

/-- The characters deleted or replaced by the normalization pipeline: a
character not among them passes every replace stage unchanged. -/
def NotSpecialP (c : Char) : Prop :=
  c ≠ '(' ∧ c ≠ ')' ∧ c ≠ ' ' ∧ c ≠ '+' ∧ c ≠ '…' ∧ c ≠ '.' ∧ c ≠ ',' ∧
  c ≠ '/' ∧ c ≠ '?' ∧ c ≠ '#' ∧ c ≠ '-' ∧ c ≠ ':' ∧ c ≠ '\x83'

instance (c : Char) : Decidable (NotSpecialP c) := by
  unfold NotSpecialP
  infer_instance

/-! ### OrcidId.checksumValid (sparcur/core.py) -/

/-- `int(c)` for a single character: its digit value, or failure. -/
def orcidDigitVal (c : Char) : Option Nat :=
  if c.isDigit then some (c.toNat - 48) else none

/-- The left fold `total = (total + int(d)) * 2` over the non-final
characters, failing on the first non-digit. -/
def orcidFold (init : Nat) (ds : List Char) : Option Nat :=
  match ds with
  | [] => some init
  | d :: rest =>
    match orcidDigitVal d with
    | none => none
    | some v => orcidFold ((init + v) * 2) rest

/-- `OrcidId.checksumValid`.  `none` models the MalformedOrcidError raised
when a character cannot be parsed (or the de-hyphenated suffix is empty,
where the starred unpacking itself raises). -/
def checksumValid (suffix : List Char) : Option Bool :=
  let s := suffix.filter (fun c => c != '-')
  match s.getLast? with
  | none => none
  | some check_string =>
    let digits := s.dropLast
    match (if check_string = 'X' then some 10 else orcidDigitVal check_string) with
    | none => none
    | some check =>
      match orcidFold 0 digits with
      | none => none
      | some total =>
        let remainder := total % 11
        let result := (12 - remainder) % 11
        some (decide (result = check))

/-- The spec's check value: 10 for the character X, else the digit value. -/
def specCheckVal (c : Char) : Nat :=
  if c = 'X' then 10 else c.toNat - 48

/-- The spec's fold of the non-final digits. -/
def specTotal (ds : List Char) : Nat :=
  ds.foldl (fun t d => (t + (d.toNat - 48)) * 2) 0

/-- The spec's expected check value `(12 - (total mod 11)) mod 11`. -/
def specExpected (ds : List Char) : Nat :=
  (12 - specTotal ds % 11) % 11

/-! ### Main.export (sparcur/cli.py lines 491-595)

The command is embedded as a function from an abstract environment (the
option flags, the relevant filesystem facts, and the summary contents) to
the ordered trace of filesystem/process events it performs.  `isDataset`
abstracts the external cached-path layer's dataset-granularity test
consulted at cli.py line 499. -/

inductive ExportEvent where
  | mkdirSnapshot
  | unlinkLatest
  | symlinkLatest
  | mkdirDatasetsDir
  | writeFile (suffix : String)
  | printLine (msg : String)
  | exitProc (code : Nat)
  | raiseTypeError
  | shellEmbed
  deriving DecidableEq, Repr

structure ExportOptions where
  ttl : Bool
  json : Bool
  datasets : Bool
  debug : Bool
  deriving DecidableEq, Repr

structure ExportEnv where
  /-- whether `cwd == cwd.cache.anchor` -/
  cwdIsAnchor : Bool
  /-- the external cache layer's dataset-granularity test for the cwd -/
  isDataset : Bool
  /-- whether the timestamped dump path already exists -/
  dumpPathExists : Bool
  /-- whether the LATEST path exists -/
  latestExists : Bool
  /-- whether the existing LATEST path is a symlink -/
  latestIsSymlink : Bool
  /-- display name of the cwd's cache, used in the error message -/
  cwdName : String
  /-- names of the summary's xml documents -/
  xmlNames : List String
  /-- names of the summary's disco tables -/
  discoNames : List String
  /-- ids of the summary's datasets -/
  datasetIds : List String
  deriving DecidableEq, Repr

/-- The file writes (and per-file prints) of single-dataset mode, json
first, then ttl (cli.py lines 516-540). -/
def datasetWrites (o : ExportOptions) : List ExportEvent :=
  (if o.json then [ExportEvent.writeFile ".json",
                   ExportEvent.printLine "dataset graph exported to curation-export.json"]
   else []) ++
  (if o.ttl then [ExportEvent.writeFile ".ttl",
                  ExportEvent.printLine "dataset graph exported to curation-export.ttl"]
   else [])

/-- The file writes of project-wide mode: xml documents, json, ttl, disco
tsv tables, then optionally the per-dataset ttl graphs (cli.py 560-592). -/
def projectWrites (o : ExportOptions) (e : ExportEnv) : List ExportEvent :=
  (e.xmlNames.map (fun n => ExportEvent.writeFile ("." ++ n ++ ".xml"))) ++
  [ExportEvent.writeFile ".json", ExportEvent.writeFile ".ttl"] ++
  (e.discoNames.map (fun n => ExportEvent.writeFile ("." ++ n ++ ".tsv"))) ++
  (if o.datasets then
     ExportEvent.mkdirDatasetsDir ::
       e.datasetIds.flatMap
         (fun d => [ExportEvent.writeFile (d ++ ".ttl"),
                    ExportEvent.printLine ("dataset graph exported to " ++ d)])
   else if o.debug then [ExportEvent.shellEmbed] else [])

/-- `Main.export`: the ordered event trace of one invocation.  A raised
TypeError (LATEST exists but is not a symlink) aborts the command, so the
trace ends there. -/
def exportMain (o : ExportOptions) (e : ExportEnv) : List ExportEvent :=
  if !e.cwdIsAnchor && (o.ttl || o.json) then
    if !e.isDataset then
      [ExportEvent.printLine (e.cwdName ++ " is not at dataset level!"),
       ExportEvent.exitProc 123]
    else if !e.dumpPathExists then
      if e.latestExists then
        if !e.latestIsSymlink then
          [ExportEvent.mkdirSnapshot, ExportEvent.raiseTypeError]
        else
          [ExportEvent.mkdirSnapshot, ExportEvent.unlinkLatest, ExportEvent.symlinkLatest] ++
            datasetWrites o
      else
        [ExportEvent.mkdirSnapshot, ExportEvent.symlinkLatest] ++ datasetWrites o
    else
      datasetWrites o
  else
    if !e.dumpPathExists then
      if e.latestExists then
        if !e.latestIsSymlink then
          [ExportEvent.mkdirSnapshot, ExportEvent.raiseTypeError]
        else
          [ExportEvent.mkdirSnapshot, ExportEvent.unlinkLatest, ExportEvent.symlinkLatest] ++
            projectWrites o e
      else
        [ExportEvent.mkdirSnapshot, ExportEvent.symlinkLatest] ++ projectWrites o e
    else
      projectWrites o e

/-- Is the event a content write? -/
def isWriteEvent : ExportEvent → Bool
  | ExportEvent.writeFile _ => true
  | _ => false

/-- The claim's ordering contract: every relink of LATEST happens after
every content write of the trace. -/
def writesPrecedeLink (t : List ExportEvent) : Prop :=
  ∀ i j : Nat, t[i]? = some ExportEvent.symlinkLatest →
    (∃ s, t[j]? = some (ExportEvent.writeFile s)) → j < i

/-- The code's ordering: every relink of LATEST happens before every
content write of the trace. -/
def linkPrecedesWrites (t : List ExportEvent) : Prop :=
  ∀ i j : Nat, t[i]? = some ExportEvent.symlinkLatest →
    (∃ s, t[j]? = some (ExportEvent.writeFile s)) → i < j

/-! ### Main.clone (sparcur/cli.py lines 330-359)

Embedded as a trace of prints / process exits / the final pull. -/

inductive CloneEvent where
  | printLine (msg : String)
  | exitProc (code : Nat)
  | doPull
  deriving DecidableEq, Repr

structure CloneEnv where
  /-- the `<project-id>` argument, if given -/
  projectId : Option String
  /-- whether resolving the project name raises MissingSecretError -/
  secretMissing : Bool
  /-- the resolved remote project name -/
  projectName : String
  /-- whether `find_cache_root()` on the destination finds an enclosing
  project root -/
  insideProjectRoot : Bool
  /-- display form of the found root, for the exit-3 message -/
  rootName : String
  /-- whether the destination anchor path already exists -/
  anchorExists : Bool
  /-- whether the existing destination directory has children -/
  anchorHasChildren : Bool
  deriving DecidableEq, Repr

/-- `Main.clone`: the ordered event trace of one invocation.  In the
non-empty-destination branch (cli.py 353-356) the message string is
assigned to a local variable but never printed before `sys.exit(2)`. -/
def cloneMain (e : CloneEnv) : List CloneEvent :=
  match e.projectId with
  | none => [CloneEvent.printLine "no remote project id listed", CloneEvent.exitProc 4]
  | some pid =>
    if e.secretMissing then
      [CloneEvent.printLine ("missing api secret entry for " ++ pid), CloneEvent.exitProc 11]
    else if e.insideProjectRoot then
      [CloneEvent.printLine ("fatal: already in project located at " ++ e.rootName),
       CloneEvent.exitProc 3]
    else if e.anchorExists && e.anchorHasChildren then
      [CloneEvent.exitProc 2]
    else
      [CloneEvent.doPull]

/-! ### Main._build_paths (sparcur/cli.py lines 281-316)

Local paths are embedded as finitely branching trees carrying the
directory flag, the broken-symlink flag and the cached file id. -/

inductive PNode where
  | mk (dirFlag : Bool) (brokenFlag : Bool) (fid : Option Nat) (kids : List PNode)

/-- `path.is_dir()` -/
def PNode.isDir : PNode → Bool
  | PNode.mk d _ _ _ => d

/-- `path.is_broken_symlink()` -/
def PNode.isBrokenSymlink : PNode → Bool
  | PNode.mk _ b _ _ => b

/-- `path.cache.meta.file_id` -/
def PNode.fileId : PNode → Option Nat
  | PNode.mk _ _ f _ => f

/-- `path.children` -/
def PNode.children : PNode → List PNode
  | PNode.mk _ _ _ cs => cs

/-- `path.rchildren` for every path in the list: each node followed by its
recursive children, depth first. -/
def rchildrenList : List PNode → List PNode
  | [] => []
  | PNode.mk d b f cs :: rest =>
    PNode.mk d b f cs :: (rchildrenList cs ++ rchildrenList rest)

/-- The `inner` generator of `_build_paths`: depth-first traversal with the
only-no-file-id / empty filters and the depth limit `stop`. -/
def innerBuild (onfi empty : Bool) (stop : Option Nat) : Nat → List PNode → List PNode
  | _, [] => []
  | level, PNode.mk d b f cs :: rest =>
    let p := PNode.mk d b f cs
    let recPart : List PNode :=
      match stop with
      | none =>
        if onfi then
          (rchildrenList cs).filter (fun rc => rc.isBrokenSymlink && rc.fileId == none)
        else
          rchildrenList cs
      | some sl => if level ≤ sl then innerBuild onfi empty stop (level + 1) cs else []
    let headPart : List PNode :=
      if onfi then
        if b && f == none then [p] else recPart
      else if empty then
        if d then (if cs.isEmpty then [p] else []) ++ recPart else []
      else
        p :: recPart
    headPart ++ innerBuild onfi empty stop level rest

/-- `Main._build_paths` (the traversal starts at level 0). -/
def buildPaths (onfi empty : Bool) (stop : Option Nat) (roots : List PNode) : List PNode :=
  innerBuild onfi empty stop 0 roots

/-! ### Main.find size filtering (sparcur/cli.py lines 676-690) -/

structure FindMatch where
  /-- identity marker so distinct matches stay distinct -/
  tag : Nat
  /-- `p.cache.meta.size` in bytes, `none` when unknown -/
  cachedSize : Option Nat
  /-- `p.exists()` -/
  existsLocal : Bool
  /-- `p.size`, the actual local size (meaningful when the path exists) -/
  localSize : Nat
  deriving DecidableEq, Repr

/-- `size.mb < limit`, exact: `size / 1024**2 < limit` over the rationals
iff `size < limit * 1048576` over the integers. -/
def mbWithin (sz limitMb : Nat) : Bool :=
  sz < limitMb * 1048576

/-- The retention predicate of the `find` size filter (cli.py 681-688).
The `not log.info(...)` conjunct of the source is always true (logging
returns None), so it only emits the truncated-transfer warning. -/
def findKeep (limit : Nat) (searchExists : Bool) (p : FindMatch) : Bool :=
  match p.cachedSize with
  | none => true
  | some sz =>
    searchExists ||
    (!p.existsLocal && mbWithin sz limit) ||
    (p.existsLocal && (p.localSize != sz) && mbWithin sz limit)

/-- The list comprehension filtering `paths` when a size limit is
configured. -/
def findFilterPaths (limit : Nat) (searchExists : Bool) (ps : List FindMatch) : List FindMatch :=
  ps.filter (findKeep limit searchExists)

/-- The claim's retention predicate: cached size unknown, or within the
limit and (no local copy, or the local copy's size matches the cache). -/
def findKeepClaim (limit : Nat) (p : FindMatch) : Bool :=
  match p.cachedSize with
  | none => true
  | some sz => mbWithin sz limit && (!p.existsLocal || (p.localSize == sz))

/-- The amended retention predicate: cached size unknown, or within the
limit and (no local copy, or the existing local copy's size disagrees with
the cache — a truncated transfer to be re-fetched). -/
def findKeepAmended (limit : Nat) (p : FindMatch) : Bool :=
  match p.cachedSize with
  | none => true
  | some sz => mbWithin sz limit && (!p.existsLocal || (p.localSize != sz))

/-! ### Report.size (sparcur/cli.py lines 799-856) -/

inductive EntryKind where
  | efile
  | ebroken
  | edir
  | eother
  deriving DecidableEq, Repr

/-- One entry of `path.rchildren` with its cached metadata size. -/
structure SizeEntry where
  kind : EntryKind
  size : Option Nat
  deriving DecidableEq, Repr

/-- One directory given to `report size`. -/
structure SizeDir where
  dname : String
  entries : List SizeEntry
  deriving DecidableEq, Repr

structure SizeAcc where
  outstanding : Nat
  total : Nat
  tf : Nat
  ff : Nat
  td : Nat
  uncertain : Bool
  deriving DecidableEq, Repr

/-- One iteration of the accumulation loop (cli.py 819-838). -/
def sizeStep (acc : SizeAcc) (p : SizeEntry) : SizeAcc :=
  match p.kind with
  | EntryKind.efile =>
    match p.size with
    | none => { acc with uncertain := true }
    | some s =>
      { acc with tf := acc.tf + 1,
                 total := if s ≠ 0 then acc.total + s else acc.total }
  | EntryKind.ebroken =>
    match p.size with
    | none => { acc with uncertain := true }
    | some s =>
      { acc with tf := acc.tf + 1,
                 total := if s ≠ 0 then acc.total + s else acc.total,
                 ff := acc.ff + 1,
                 outstanding := if s ≠ 0 then acc.outstanding + s else acc.outstanding }
  | EntryKind.edir => { acc with td := acc.td + 1 }
  | EntryKind.eother => acc

/-- One data row (cli.py 840-848): name, local = total - outstanding,
outstanding, total, uncertain flag, fetched count = tf - ff, ff, tf, td. -/
structure SizeRow where
  rname : String
  localBytes : Nat
  outstanding : Nat
  total : Nat
  uncertain : Bool
  fetched : Nat
  ff : Nat
  tf : Nat
  td : Nat
  deriving DecidableEq, Repr

def sizeRow (d : SizeDir) : SizeRow :=
  let acc := d.entries.foldl sizeStep ⟨0, 0, 0, 0, 0, false⟩
  { rname := d.dname,
    localBytes := acc.total - acc.outstanding,
    outstanding := acc.outstanding,
    total := acc.total,
    uncertain := acc.uncertain,
    fetched := acc.tf - acc.ff,
    ff := acc.ff,
    tf := acc.tf,
    td := acc.td }

/-- The sort key of cli.py line 852, `(r[4], -r[3])` =
(uncertain flag ascending, total bytes descending), as a total preorder. -/
def sizeRowLe (a b : SizeRow) : Bool :=
  (!a.uncertain && b.uncertain) || ((a.uncertain == b.uncertain) && (b.total ≤ a.total))

/-- Stable insertion into a list sorted by `le`: equal keys keep the
existing element first, as Python's stable sort does. -/
def insertSorted {α : Type} (le : α → α → Bool) (x : α) : List α → List α
  | [] => [x]
  | y :: ys => if le y x then y :: insertSorted le x ys else x :: y :: ys

/-- Stable sort by `le` (the behavior of Python's `sorted`). -/
def pySortedList {α : Type} (le : α → α → Bool) (l : List α) : List α :=
  l.foldl (fun acc x => insertSorted le x acc) []

/-- `Report.size`: one row per given directory, sorted by the
`(r[4], -r[3])` key. -/
def reportSizeRows (dirs : List SizeDir) : List SizeRow :=
  pySortedList sizeRowLe (dirs.map sizeRow)

/-- The claim's row ordering: fetched-file-count ascending, then total
bytes descending. -/
def claimSizeOrder (a b : SizeRow) : Prop :=
  a.fetched < b.fetched ∨ (a.fetched = b.fetched ∧ b.total ≤ a.total)

instance (a b : SizeRow) : Decidable (claimSizeOrder a b) := by
  unfold claimSizeOrder
  infer_instance

/-! ## Theorems -/

/-- C7: `FileSize.hr` renders 0 as "0", 1024 as "1K", 1536 as "2K"
(zero-decimal formatting after repeated division by 1024), and renders
every negative value as the literal "??". -/
theorem filesize_hr_values :
    FileSize.hr 0 = "0" ∧ FileSize.hr 1024 = "1K" ∧ FileSize.hr 1536 = "2K" ∧
    ∀ n : Int, n < 0 → FileSize.hr n = "??" := by
  refine ⟨by decide, by decide, by decide, ?_⟩
  intro n hn
  unfold FileSize.hr
  rw [if_neg (by omega)]

/-- Witness for C7: the negative case at -5. -/
theorem filesize_hr_values_witness : FileSize.hr (-5) = "??" :=
  filesize_hr_values.2.2.2 (-5) (by decide)

/-- C10: `python_identifier` fails (raises IndexError, modelled as `none`)
exactly on the inputs whose normalized form is empty, among them the empty
string, a whitespace-only string, and a string of only deleted characters. -/
theorem python_identifier_empty_none :
    (∀ s : List Char, pythonIdentifier s = none ↔ pyIdentCore s = []) ∧
    pythonIdentifier [] = none ∧
    pythonIdentifier [' ', ' '] = none ∧
    pythonIdentifier ['(', ')', '+', '…'] = none := by
  refine ⟨?_, by decide, by decide, by decide⟩
  intro s
  unfold pythonIdentifier
  cases h : pyIdentCore s with
  | nil => simp
  | cons c cs => simp

/-- C9 counterexample: `python_identifier` is not idempotent where it is
defined.  On "(\tx" the deletion of "(" exposes a leading tab which only
the second application strips: once gives "\tx", twice gives "x". -/
theorem python_identifier_idempotent_cex :
    (pythonIdentifier ['(', '\t', 'x']).bind pythonIdentifier ≠
      pythonIdentifier ['(', '\t', 'x'] := by
  decide

/-- C1: invoking export with a concrete format flag (ttl and/or json) from
a directory that is not the project anchor and not at dataset granularity
prints an error message and exits with status 123 (cli.py 497-501). -/
theorem export_wrong_granularity_exits_123 :
    ∀ (o : ExportOptions) (e : ExportEnv),
      e.cwdIsAnchor = false → (o.ttl || o.json) = true → e.isDataset = false →
      exportMain o e =
        [ExportEvent.printLine (e.cwdName ++ " is not at dataset level!"),
         ExportEvent.exitProc 123] := by
  intro o e h1 h2 h3
  unfold exportMain
  rw [h1, h2, h3]
  simp

/-- Witness for C1 at a concrete invocation. -/
theorem export_wrong_granularity_exits_123_witness :
    exportMain ⟨true, false, false, false⟩
        ⟨false, false, false, false, false, "cwd", [], [], []⟩ =
      [ExportEvent.printLine ("cwd" ++ " is not at dataset level!"),
       ExportEvent.exitProc 123] :=
  export_wrong_granularity_exits_123
    ⟨true, false, false, false⟩
    ⟨false, false, false, false, false, "cwd", [], [], []⟩
    rfl rfl rfl

/-- Helper: an element reached by `getElem?` is a member of the list. -/
theorem mem_of_getElem?' {α : Type} {l : List α} {i : Nat} {a : α}
    (h : l[i]? = some a) : a ∈ l := by
  rw [List.getElem?_eq_some] at h
  obtain ⟨hi, he⟩ := h
  exact he ▸ List.getElem_mem hi

/-- Helper: a trace without any relink event trivially relinks before all
its writes. -/
theorem linkPrecedesWrites_of_not_mem {t : List ExportEvent}
    (h : ExportEvent.symlinkLatest ∉ t) : linkPrecedesWrites t := by
  intro i j hi _
  exact absurd (mem_of_getElem?' hi) h

/-- Helper: a trace made of a write-free prefix followed by a relink-free
tail relinks before all its writes. -/
theorem linkPrecedesWrites_append {pre rest : List ExportEvent}
    (h1 : ∀ s, ExportEvent.writeFile s ∉ pre)
    (h2 : ExportEvent.symlinkLatest ∉ rest) :
    linkPrecedesWrites (pre ++ rest) := by
  intro i j hi hj
  have hilt : i < pre.length := by
    by_contra hc
    push_neg at hc
    rw [List.getElem?_append_right hc] at hi
    exact h2 (mem_of_getElem?' hi)
  have hjge : pre.length ≤ j := by
    by_contra hc
    push_neg at hc
    obtain ⟨s, hs⟩ := hj
    rw [List.getElem?_append, if_pos hc] at hs
    exact h1 s (mem_of_getElem?' hs)
  omega

/-- Helper: single-dataset content writes contain no relink event. -/
theorem symlink_not_mem_datasetWrites (o : ExportOptions) :
    ExportEvent.symlinkLatest ∉ datasetWrites o := by
  by_cases hj : o.json <;> by_cases ht : o.ttl <;> simp [datasetWrites, hj, ht]

/-- Helper: project-wide content writes contain no relink event. -/
theorem symlink_not_mem_projectWrites (o : ExportOptions) (e : ExportEnv) :
    ExportEvent.symlinkLatest ∉ projectWrites o e := by
  by_cases hd : o.datasets <;> by_cases hdbg : o.debug <;>
    simp [projectWrites, hd, hdbg]

/-- C2 counterexample: a successful single-dataset json export from a fresh
timestamp relinks LATEST (index 2 of the trace) before writing the
snapshot's content (index 3), so the relink does not happen only after the
content is fully written. -/
theorem latest_relink_after_writes_cex :
    ¬ writesPrecedeLink
        (exportMain ⟨false, true, false, false⟩
          ⟨false, true, false, true, true, "cwd", [], [], []⟩) := by
  intro h
  have h23 := h 2 3 (by decide) ⟨".json", by decide⟩
  omega

/-- C2 amended: in every export, whenever LATEST is removed and relinked it
happens immediately after the snapshot directory is created and before any
of the snapshot's content is written, so the content writes occur with
LATEST already pointing at the new, still-incomplete snapshot. -/
theorem latest_relink_before_writes :
    ∀ (o : ExportOptions) (e : ExportEnv), linkPrecedesWrites (exportMain o e) := by
  intro o e
  unfold exportMain
  repeat' split
  all_goals first
    | (apply linkPrecedesWrites_of_not_mem; simp; done)
    | (exact linkPrecedesWrites_append (fun s => by simp) (symlink_not_mem_datasetWrites o))
    | (exact linkPrecedesWrites_append (fun s => by simp) (symlink_not_mem_projectWrites o e))
    | (exact linkPrecedesWrites_of_not_mem (symlink_not_mem_datasetWrites o))
    | (exact linkPrecedesWrites_of_not_mem (symlink_not_mem_projectWrites o e))

/-- Witness for C2 amended: at a concrete single-dataset export, the relink
(index 2) precedes the json write (index 3). -/
theorem latest_relink_before_writes_witness : (2 : Nat) < 3 :=
  latest_relink_before_writes ⟨false, true, false, false⟩
    ⟨false, true, false, true, true, "cwd", [], [], []⟩ 2 3
    (by decide) ⟨".json", by decide⟩

/-- C8: when clone's destination directory exists and is non-empty, the
code builds the fatal message but never prints it — the trace is the bare
exit with status 2 (cli.py 353-356 assign `message` and never use it). -/
theorem clone_nonempty_destination_exit2 :
    cloneMain ⟨some "N:organization:xyz", false, "project", false, "", true, true⟩ =
      [CloneEvent.exitProc 2] := by
  decide

/-- C4 counterexample: with a 1 MB limit and "search existing" unset, the
find filter drops the existing match whose local size equals its cached
size (tag 0) and keeps the existing match whose local size disagrees with
the cache (tag 1) — the opposite of the claim's characterization on both
counts. -/
theorem find_filter_claim_cex :
    findFilterPaths 1 false [⟨0, some 100, true, 100⟩, ⟨1, some 100, true, 50⟩] ≠
      List.filter (findKeepClaim 1)
        [⟨0, some 100, true, 100⟩, ⟨1, some 100, true, 50⟩] ∧
    findFilterPaths 1 false [⟨0, some 100, true, 100⟩, ⟨1, some 100, true, 50⟩] =
      [⟨1, some 100, true, 50⟩] ∧
    List.filter (findKeepClaim 1)
        [⟨0, some 100, true, 100⟩, ⟨1, some 100, true, 50⟩] =
      [⟨0, some 100, true, 100⟩] := by
  decide

/-- C4 amended: with a size limit configured and "search existing" unset,
the retained candidate set is exactly: matches whose cached size is
unknown, plus within-limit matches with no local copy, plus within-limit
matches whose existing local copy's actual size disagrees with the cached
size (logged as truncated transfers and kept for re-fetching); a match
whose existing local copy's size equals its cached size is excluded. -/
theorem find_filter_characterization :
    ∀ (limit : Nat) (ps : List FindMatch),
      findFilterPaths limit false ps = List.filter (findKeepAmended limit) ps := by
  intro limit ps
  unfold findFilterPaths
  apply List.filter_congr
  intro p _
  unfold findKeep findKeepAmended
  rcases hcs : p.cachedSize with _ | sz
  · rfl
  · cases hw : mbWithin sz limit <;> cases he : p.existsLocal <;>
      cases hn : (p.localSize != sz) <;> simp [hw, he, hn]

/-- C5 counterexample: for directory A (five fetched files of 20 bytes,
total 100) and directory B (one fetched file of 50 bytes), the produced
rows come out A before B — by total bytes descending — whereas ordering by
fetched-file-count ascending would put B (count 1) before A (count 5). -/
theorem report_size_order_cex :
    ¬ (reportSizeRows
        [⟨"A", List.replicate 5 ⟨EntryKind.efile, some 20⟩⟩,
         ⟨"B", [⟨EntryKind.efile, some 50⟩]⟩]).Pairwise claimSizeOrder := by
  decide

/-- Helper: the `(r[4], -r[3])` sort key is total. -/
theorem sizeRowLe_total : ∀ a b : SizeRow, sizeRowLe a b = true ∨ sizeRowLe b a = true := by
  intro a b
  unfold sizeRowLe
  cases ha : a.uncertain <;> cases hb : b.uncertain <;> simp [ha, hb] <;> omega

/-- Helper: the `(r[4], -r[3])` sort key is transitive. -/
theorem sizeRowLe_trans :
    ∀ a b c : SizeRow, sizeRowLe a b = true → sizeRowLe b c = true → sizeRowLe a c = true := by
  intro a b c
  unfold sizeRowLe
  cases ha : a.uncertain <;> cases hb : b.uncertain <;> cases hc : c.uncertain <;>
    simp [ha, hb, hc] <;> omega

/-- Helper: membership through stable insertion. -/
theorem mem_insertSorted {α : Type} {le : α → α → Bool} {x z : α} {l : List α} :
    z ∈ insertSorted le x l ↔ z = x ∨ z ∈ l := by
  induction l with
  | nil => simp [insertSorted]
  | cons y ys ih =>
    unfold insertSorted
    by_cases h : le y x = true
    · rw [if_pos h]
      simp only [List.mem_cons, ih]
      tauto
    · rw [if_neg h]
      simp only [List.mem_cons]

/-- Helper: stable insertion preserves sortedness for a total transitive
boolean preorder. -/
theorem pairwise_insertSorted {α : Type} {le : α → α → Bool}
    (htot : ∀ a b, le a b = true ∨ le b a = true)
    (htrans : ∀ a b c, le a b = true → le b c = true → le a c = true)
    (x : α) {l : List α} (hl : l.Pairwise (fun a b => le a b = true)) :
    (insertSorted le x l).Pairwise (fun a b => le a b = true) := by
  induction l with
  | nil => simp [insertSorted]
  | cons y ys ih =>
    rcases List.pairwise_cons.mp hl with ⟨hy, hys⟩
    unfold insertSorted
    by_cases h : le y x = true
    · simp only [h, if_true]
      refine List.pairwise_cons.mpr ⟨?_, ih hys⟩
      intro z hz
      rcases mem_insertSorted.mp hz with rfl | hz'
      · exact h
      · exact hy z hz'
    · simp only [h, if_false]
      have hxy : le x y = true := (htot x y).resolve_right h
      refine List.pairwise_cons.mpr ⟨?_, hl⟩
      intro z hz
      rcases List.mem_cons.mp hz with rfl | hz'
      · exact hxy
      · exact htrans x y z hxy (hy z hz')

/-- Helper: the stable sort produces a list sorted by its preorder. -/
theorem pairwise_pySortedList {α : Type} {le : α → α → Bool}
    (htot : ∀ a b, le a b = true ∨ le b a = true)
    (htrans : ∀ a b c, le a b = true → le b c = true → le a c = true)
    (l : List α) :
    (pySortedList le l).Pairwise (fun a b => le a b = true) := by
  suffices h : ∀ (l acc : List α), acc.Pairwise (fun a b => le a b = true) →
      (l.foldl (fun acc x => insertSorted le x acc) acc).Pairwise
        (fun a b => le a b = true) by
    exact h l [] (by simp)
  intro l
  induction l with
  | nil => intro acc hacc; simpa using hacc
  | cons x xs ih =>
    intro acc hacc
    exact ih (insertSorted le x acc) (pairwise_insertSorted htot htrans x hacc)

/-- C5 amended: the rows produced by report size are ordered by the
uncertain flag ascending (rows whose sizes are all known first) and, within
equal flags, by total bytes descending — the key `(r[4], -r[3])` of
cli.py line 852 — not by fetched-file-count. -/
theorem report_size_order :
    ∀ dirs : List SizeDir,
      (reportSizeRows dirs).Pairwise (fun a b => sizeRowLe a b = true) := by
  intro dirs
  unfold reportSizeRows
  exact pairwise_pySortedList sizeRowLe_total sizeRowLe_trans _

/-- Witness for C5 amended at a concrete pair of directories. -/
theorem report_size_order_witness :
    (reportSizeRows
      [⟨"A", List.replicate 5 ⟨EntryKind.efile, some 20⟩⟩,
       ⟨"B", [⟨EntryKind.efile, some 50⟩]⟩]).Pairwise
        (fun a b => sizeRowLe a b = true) :=
  report_size_order _

/-- C3 counterexample: with the unbounded depth limit, `_build_paths` in
"empty only" mode applies the filter only to the root paths; every
recursive descendant is yielded unfiltered (cli.py line 311
`yield from path.rchildren`), so a non-empty directory and a plain file
under a non-empty root are both yielded. -/
theorem build_paths_empty_unbounded_cex :
    ¬ (∀ p ∈ buildPaths false true none
          [PNode.mk true false none
            [PNode.mk true false none [PNode.mk false false none []]]],
        p.isDir = true ∧ p.children = []) := by
  intro h
  have hmem : PNode.mk false false none [] ∈ buildPaths false true none
      [PNode.mk true false none
        [PNode.mk true false none [PNode.mk false false none []]]] := by
    simp [buildPaths, innerBuild, rchildrenList]
  have hdir := (h _ hmem).1
  simp [PNode.isDir] at hdir

/-- Helper for C3: in "empty only" mode with a bounded depth limit, every
yielded path is a directory with zero children, at every level. -/
theorem innerBuild_empty_sound (n : Nat) :
    ∀ (level : Nat) (l : List PNode) (p : PNode),
      p ∈ innerBuild false true (some n) level l → p.isDir = true ∧ p.children = [] := by
  intro level l
  induction level, l using innerBuild.induct false true (some n) with
  | case1 lvl =>
    intro p hp
    simp [innerBuild] at hp
  | case2 lvl d b f cs rest ihcs ihrest =>
    intro p hp
    simp only [innerBuild] at hp
    rw [List.mem_append] at hp
    rcases hp with hp | hp
    · cases d with
      | false => simp at hp
      | true =>
        simp only [if_true] at hp
        rw [if_neg (by simp)] at hp
        rw [List.mem_append] at hp
        rcases hp with hp | hp
        · by_cases hcs : cs.isEmpty = true
          · rw [if_pos hcs] at hp
            simp only [List.mem_singleton] at hp
            subst hp
            exact ⟨rfl, List.isEmpty_iff.mp hcs⟩
          · rw [if_neg hcs] at hp
            simp at hp
        · by_cases hln : lvl ≤ n
          · rw [if_pos hln] at hp
            exact ihcs 0 p hp
          · rw [if_neg hln] at hp
            simp at hp
    · exact ihrest p hp

/-- Helper for C3: in "empty only" mode, an empty directory that is a
member of the processed list is always yielded, at any level and any
depth limit. -/
theorem mem_innerBuild_empty_of_empty_dir :
    ∀ (stop : Option Nat) (level : Nat) (l : List PNode) (c : PNode),
      c ∈ l → c.isDir = true → c.children = [] →
      c ∈ innerBuild false true stop level l := by
  intro stop level l
  induction l with
  | nil =>
    intro c hc _ _
    simp at hc
  | cons q rest ih =>
    intro c hc hdir hkids
    rcases List.mem_cons.mp hc with rfl | hc'
    · obtain ⟨d, b, f, cs⟩ := c
      simp only [PNode.isDir] at hdir
      simp only [PNode.children] at hkids
      subst hdir
      subst hkids
      rcases stop with _ | sl <;> simp [innerBuild]
    · obtain ⟨dq, bq, fq, csq⟩ := q
      have hrec := ih c hc' hdir hkids
      rcases stop with _ | sl <;> simp [innerBuild, List.mem_append, hrec]

/-- C3 amended: with any bounded depth limit, `_build_paths` in "empty
only" mode (only-no-file-id unset) yields only directories that currently
have zero children, and an empty directory nested inside a (possibly
non-empty) root directory is still yielded.  (With the unbounded limit the
filter applies only to the roots and all descendants are yielded
unfiltered.) -/
theorem build_paths_empty_bounded :
    (∀ (n : Nat) (roots : List PNode) (p : PNode),
       p ∈ buildPaths false true (some n) roots →
       p.isDir = true ∧ p.children = []) ∧
    (∀ (n : Nat) (roots : List PNode) (r c : PNode),
       r ∈ roots → r.isDir = true → c ∈ r.children →
       c.isDir = true → c.children = [] →
       c ∈ buildPaths false true (some n) roots) := by
  constructor
  · intro n roots p hp
    exact innerBuild_empty_sound n 0 roots p hp
  · intro n roots r c hr hrdir hcmem hcdir hckids
    induction roots with
    | nil => simp at hr
    | cons q rest ih =>
      rcases List.mem_cons.mp hr with rfl | hr'
      · obtain ⟨d, b, f, cs⟩ := r
        simp only [PNode.isDir] at hrdir
        simp only [PNode.children] at hcmem
        subst hrdir
        have hrec : c ∈ innerBuild false true (some n) (0 + 1) cs :=
          mem_innerBuild_empty_of_empty_dir _ _ _ _ hcmem hcdir hckids
        simp only [buildPaths, innerBuild]
        simp [List.mem_append, Nat.zero_le, hrec]
      · have hrec := ih hr'
        simp only [buildPaths] at hrec ⊢
        obtain ⟨dq, bq, fq, csq⟩ := q
        simp only [innerBuild]
        simp [List.mem_append, hrec]

/-- Witness for C3 amended: with depth limit 0, the empty directory nested
inside a non-empty root directory is yielded, and is indeed an empty
directory. -/
theorem build_paths_empty_bounded_witness :
    PNode.mk true false none [] ∈
      buildPaths false true (some 0)
        [PNode.mk true false none [PNode.mk true false none []]] ∧
    (PNode.mk true false none []).isDir = true ∧
    (PNode.mk true false none []).children = [] := by
  refine ⟨?_, ?_, ?_⟩
  · exact build_paths_empty_bounded.2 0
      [PNode.mk true false none [PNode.mk true false none []]]
      (PNode.mk true false none [PNode.mk true false none []])
      (PNode.mk true false none [])
      (by simp) (by simp [PNode.isDir]) (by simp [PNode.children])
      (by simp [PNode.isDir]) (by simp [PNode.children])
  · rfl
  · rfl

/-- Helper for C6: the fold succeeds on all-digit strings and computes the
spec's running total. -/
theorem orcidFold_eq_some :
    ∀ (ds : List Char) (init : Nat), (∀ d ∈ ds, d.isDigit = true) →
      orcidFold init ds = some (ds.foldl (fun t d => (t + (d.toNat - 48)) * 2) init) := by
  intro ds
  induction ds with
  | nil => intro init _; rfl
  | cons d rest ih =>
    intro init hall
    have hd : d.isDigit = true := hall d (by simp)
    simp only [orcidFold, orcidDigitVal, hd, if_true, List.foldl_cons]
    exact ih _ (fun x hx => hall x (by simp [hx]))

/-- Helper for C6: the fold fails as soon as some character is not a
digit. -/
theorem orcidFold_eq_none :
    ∀ (ds : List Char) (init : Nat) (d : Char), d ∈ ds → d.isDigit = false →
      orcidFold init ds = none := by
  intro ds
  induction ds with
  | nil => intro init d hd _; simp at hd
  | cons q rest ih =>
    intro init d hd hnd
    rcases List.mem_cons.mp hd with rfl | hd'
    · simp [orcidFold, orcidDigitVal, hnd]
    · by_cases hq : q.isDigit = true
      · simp only [orcidFold, orcidDigitVal, hq, if_true]
        exact ih _ d hd' hnd
      · rw [Bool.not_eq_true] at hq
        simp [orcidFold, orcidDigitVal, hq]

/-- C6: when the de-hyphenated suffix is digits followed by a final digit
or `X`, checksumValid returns exactly the boolean
`(12 - (total mod 11)) mod 11 = check value` with the total folded as
`total = (total + digit) * 2`; on every other suffix it raises the
Malformed-Identifier error (modelled as `none`) instead of returning
false. -/
theorem orcid_checksum_valid_iff :
    (∀ (suffix ds : List Char) (c : Char),
       suffix.filter (fun x => x != '-') = ds ++ [c] →
       (∀ d ∈ ds, d.isDigit = true) →
       (c.isDigit = true ∨ c = 'X') →
       checksumValid suffix = some (decide (specExpected ds = specCheckVal c))) ∧
    (∀ suffix : List Char,
       (¬ ∃ (ds : List Char) (c : Char),
          suffix.filter (fun x => x != '-') = ds ++ [c] ∧
          (∀ d ∈ ds, d.isDigit = true) ∧
          (c.isDigit = true ∨ c = 'X')) →
       checksumValid suffix = none) := by
  constructor
  · intro suffix ds c hsplit hdig hc
    simp only [checksumValid, hsplit, List.getLast?_concat, List.dropLast_concat]
    by_cases hcx : c = 'X'
    · subst hcx
      rw [if_pos rfl, orcidFold_eq_some ds 0 hdig]
      simp [specExpected, specTotal, specCheckVal]
    · have hcd : c.isDigit = true := hc.resolve_right hcx
      rw [if_neg hcx]
      simp only [orcidDigitVal, hcd, if_true]
      rw [orcidFold_eq_some ds 0 hdig]
      simp [specExpected, specTotal, specCheckVal, hcx]
  · intro suffix hnex
    push_neg at hnex
    cases hfil : suffix.filter (fun x => x != '-') with
    | nil => simp [checksumValid, hfil]
    | cons a as =>
      have hne : a :: as ≠ ([] : List Char) := by simp
      obtain ⟨ds, c, hs⟩ : ∃ (ds : List Char) (c : Char), a :: as = ds ++ [c] :=
        ⟨(a :: as).dropLast, (a :: as).getLast hne,
          (List.dropLast_append_getLast hne).symm⟩
      have hsplit : suffix.filter (fun x => x != '-') = ds ++ [c] := by
        rw [hfil, hs]
      have hneg := hnex ds c hsplit
      simp only [checksumValid, hsplit, List.getLast?_concat, List.dropLast_concat]
      by_cases hdig : ∀ d ∈ ds, d.isDigit = true
      · have hcbad := hneg hdig
        have hcd : c.isDigit = false := Bool.not_eq_true _ |>.mp hcbad.1
        have hcx : c ≠ 'X' := hcbad.2
        rw [if_neg hcx]
        simp [orcidDigitVal, hcd]
      · push_neg at hdig
        obtain ⟨d, hdm, hdnd⟩ := hdig
        have hdnd' : d.isDigit = false := Bool.not_eq_true _ |>.mp hdnd
        rw [orcidFold_eq_none ds 0 d hdm hdnd']
        rcases hif : (if c = 'X' then some 10 else orcidDigitVal c) with _ | v <;>
          simp [hif]

/-- Witness for C6 at the well-known valid identifier 0000-0002-1825-0097
(the theorem's hypotheses are discharged by computation, and the computed
boolean is true). -/
theorem orcid_checksum_valid_iff_witness :
    checksumValid ("0000-0002-1825-0097".toList) =
      some (decide (specExpected ("000000021825009".toList) = specCheckVal '7')) ∧
    decide (specExpected ("000000021825009".toList) = specCheckVal '7') = true := by
  constructor
  · exact orcid_checksum_valid_iff.1 ("0000-0002-1825-0097".toList)
      ("000000021825009".toList) '7' (by decide) (by decide) (Or.inl (by decide))
  · decide

/-- Helper for C9: a character surviving one replace stage either came
from the replacement text or is an original character distinct from the
pattern. -/
theorem mem_replaceChar {c pat : Char} {rep s : List Char}
    (h : c ∈ replaceChar pat rep s) : c ∈ rep ∨ (c ∈ s ∧ c ≠ pat) := by
  simp only [replaceChar, List.mem_flatMap] at h
  obtain ⟨a, ha, hc⟩ := h
  by_cases hap : a = pat
  · subst hap
    rw [if_pos rfl] at hc
    exact Or.inl hc
  · rw [if_neg hap] at hc
    simp only [List.mem_singleton] at hc
    subst hc
    exact Or.inr ⟨ha, hap⟩

/-- Helper for C9: a replace stage leaves a string without the pattern
character unchanged. -/
theorem replaceChar_eq_self {pat : Char} {rep s : List Char}
    (h : ∀ c ∈ s, c ≠ pat) : replaceChar pat rep s = s := by
  induction s with
  | nil => rfl
  | cons a t ih =>
    have hrest := ih (fun c hc => h c (by simp [hc]))
    simp only [replaceChar, List.flatMap_cons] at hrest ⊢
    rw [if_neg (h a (by simp)), hrest]
    rfl

/-- Helper: codepoint of a character built from a valid scalar value. -/
theorem char_toNat_ofNat_valid {n : Nat} (h : n < 55296) : (Char.ofNat n).toNat = n := by
  have hv : n.isValidChar := Or.inl h
  simp only [Char.ofNat, dif_pos hv]
  simp [Char.ofNatAux, Char.toNat, UInt32.toNat]

/-- Helper: lowercasing fixes every character outside A-Z. -/
theorem pyLower_eq_self {c : Char} (h : ¬(65 ≤ c.toNat ∧ c.toNat ≤ 90)) :
    pyLower c = c := by
  unfold pyLower
  rw [if_neg h]

/-- Helper: lowercasing an uppercase letter adds 32 to its codepoint. -/
theorem pyLower_toNat_upper {c : Char} (h : 65 ≤ c.toNat ∧ c.toNat ≤ 90) :
    (pyLower c).toNat = c.toNat + 32 := by
  unfold pyLower
  rw [if_pos h]
  exact char_toNat_ofNat_valid (by omega)

/-- Helper: lowercasing is idempotent. -/
theorem pyLower_idem (c : Char) : pyLower (pyLower c) = pyLower c := by
  by_cases h : 65 ≤ c.toNat ∧ c.toNat ≤ 90
  · have ht := pyLower_toNat_upper h
    exact pyLower_eq_self (by omega)
  · rw [pyLower_eq_self h]
    exact pyLower_eq_self h

/-- Helper: lowercasing never produces a deleted/replaced character. -/
theorem NotSpecialP_pyLower {c : Char} (hns : NotSpecialP c) :
    NotSpecialP (pyLower c) := by
  by_cases h : 65 ≤ c.toNat ∧ c.toNat ≤ 90
  · have ht := pyLower_toNat_upper h
    have e1 : ('(' : Char).toNat = 40 := rfl
    have e2 : (')' : Char).toNat = 41 := rfl
    have e3 : (' ' : Char).toNat = 32 := rfl
    have e4 : ('+' : Char).toNat = 43 := rfl
    have e5 : ('…' : Char).toNat = 8230 := rfl
    have e6 : ('.' : Char).toNat = 46 := rfl
    have e7 : (',' : Char).toNat = 44 := rfl
    have e8 : ('/' : Char).toNat = 47 := rfl
    have e9 : ('?' : Char).toNat = 63 := rfl
    have e10 : ('#' : Char).toNat = 35 := rfl
    have e11 : ('-' : Char).toNat = 45 := rfl
    have e12 : (':' : Char).toNat = 58 := rfl
    have e13 : ('\x83' : Char).toNat = 131 := rfl
    refine ⟨?_, ?_, ?_, ?_, ?_, ?_, ?_, ?_, ?_, ?_, ?_, ?_, ?_⟩ <;>
      (intro he;
       have h2 := congrArg Char.toNat he;
       simp only [ht, e1, e2, e3, e4, e5, e6, e7, e8, e9, e10, e11, e12, e13] at h2;
       omega)
  · rw [pyLower_eq_self h]
    exact hns

/-- Helper for C9: no character of the replace-stage output is one of the
deleted/replaced characters. -/
theorem notSpecial_of_mem_pyIdentPre {s : List Char} {c : Char}
    (h : c ∈ pyIdentPre s) : NotSpecialP c := by
  unfold pyIdentPre at h
  rcases mem_replaceChar h with h0 | ⟨h, hne83⟩
  · simp at h0
  rcases mem_replaceChar h with h0 | ⟨h, hneColon⟩
  · simp only [List.mem_singleton] at h0
    subst h0
    decide
  rcases mem_replaceChar h with h0 | ⟨h, hneDash⟩
  · simp only [List.mem_singleton] at h0
    subst h0
    decide
  rcases mem_replaceChar h with h0 | ⟨h, hneHash⟩
  · have hnum : "number".toList = ['n', 'u', 'm', 'b', 'e', 'r'] := rfl
    rw [hnum] at h0
    fin_cases h0 <;> decide
  rcases mem_replaceChar h with h0 | ⟨h, hneQm⟩
  · simp only [List.mem_singleton] at h0
    subst h0
    decide
  rcases mem_replaceChar h with h0 | ⟨h, hneSlash⟩
  · simp only [List.mem_singleton] at h0
    subst h0
    decide
  rcases mem_replaceChar h with h0 | ⟨h, hneComma⟩
  · simp only [List.mem_singleton] at h0
    subst h0
    decide
  rcases mem_replaceChar h with h0 | ⟨h, hneDot⟩
  · simp only [List.mem_singleton] at h0
    subst h0
    decide
  rcases mem_replaceChar h with h0 | ⟨h, hneEll⟩
  · simp at h0
  rcases mem_replaceChar h with h0 | ⟨h, hnePlus⟩
  · simp at h0
  rcases mem_replaceChar h with h0 | ⟨h, hneSpace⟩
  · simp only [List.mem_singleton] at h0
    subst h0
    decide
  rcases mem_replaceChar h with h0 | ⟨h, hneRpar⟩
  · simp at h0
  rcases mem_replaceChar h with h0 | ⟨h, hneLpar⟩
  · simp at h0
  exact ⟨hneLpar, hneRpar, hneSpace, hnePlus, hneEll, hneDot, hneComma,
         hneSlash, hneQm, hneHash, hneDash, hneColon, hne83⟩

/-- Helper for C9: every character of the normalized output is
non-special and lowercase-fixed. -/
theorem clean_of_mem_pyIdentCore {s : List Char} {c : Char}
    (h : c ∈ pyIdentCore s) : NotSpecialP c ∧ pyLower c = c := by
  unfold pyIdentCore at h
  rw [List.mem_map] at h
  obtain ⟨a, ha, rfl⟩ := h
  exact ⟨NotSpecialP_pyLower (notSpecial_of_mem_pyIdentPre ha), pyLower_idem a⟩

/-- Helper: mapping a function that fixes every member is the identity. -/
theorem map_pyLower_eq_self {r : List Char} (h : ∀ c ∈ r, pyLower c = c) :
    r.map pyLower = r := by
  induction r with
  | nil => rfl
  | cons a t ih =>
    rw [List.map_cons, h a (by simp), ih (fun c hc => h c (by simp [hc]))]

/-- Helper for C9: the normalization pipeline fixes any string that is
strip-fixed and consists of non-special lowercase-fixed characters. -/
theorem pyIdentCore_fixed {r : List Char} (hstrip : pyStrip r = r)
    (hclean : ∀ c ∈ r, NotSpecialP c ∧ pyLower c = c) : pyIdentCore r = r := by
  have hns : ∀ c ∈ r, NotSpecialP c := fun c hc => (hclean c hc).1
  simp only [pyIdentCore, pyIdentPre]
  rw [hstrip,
      replaceChar_eq_self (fun c hc => (hns c hc).1),
      replaceChar_eq_self (fun c hc => (hns c hc).2.1),
      replaceChar_eq_self (fun c hc => (hns c hc).2.2.1),
      replaceChar_eq_self (fun c hc => (hns c hc).2.2.2.1),
      replaceChar_eq_self (fun c hc => (hns c hc).2.2.2.2.1),
      replaceChar_eq_self (fun c hc => (hns c hc).2.2.2.2.2.1),
      replaceChar_eq_self (fun c hc => (hns c hc).2.2.2.2.2.2.1),
      replaceChar_eq_self (fun c hc => (hns c hc).2.2.2.2.2.2.2.1),
      replaceChar_eq_self (fun c hc => (hns c hc).2.2.2.2.2.2.2.2.1),
      replaceChar_eq_self (fun c hc => (hns c hc).2.2.2.2.2.2.2.2.2.1),
      replaceChar_eq_self (fun c hc => (hns c hc).2.2.2.2.2.2.2.2.2.2.1),
      replaceChar_eq_self (fun c hc => (hns c hc).2.2.2.2.2.2.2.2.2.2.2.1),
      replaceChar_eq_self (fun c hc => (hns c hc).2.2.2.2.2.2.2.2.2.2.2.2)]
  exact map_pyLower_eq_self (fun c hc => (hclean c hc).2)

/-- Helper for C9: python_identifier returns its input unchanged when the
pipeline fixes it and its head is not a digit. -/
theorem pythonIdentifier_fixed {r : List Char} {c0 : Char} {cs0 : List Char}
    (hfix : pyIdentCore r = r) (hr : r = c0 :: cs0) (hd : pyIsDigit c0 = false) :
    pythonIdentifier r = some r := by
  subst hr
  unfold pythonIdentifier
  rw [hfix]
  simp [hd]

/-- Helper for C9: the shape of every defined python_identifier result. -/
theorem pythonIdentifier_eq_some {s r : List Char} (h : pythonIdentifier s = some r) :
    ∃ c0 cs0, pyIdentCore s = c0 :: cs0 ∧
      ((pyIsDigit c0 = true ∧ r = 'n' :: '_' :: c0 :: cs0) ∨
       (pyIsDigit c0 = false ∧ r = c0 :: cs0)) := by
  unfold pythonIdentifier at h
  cases hcore : pyIdentCore s with
  | nil =>
    rw [hcore] at h
    simp at h
  | cons c0 cs0 =>
    rw [hcore] at h
    simp only [Option.some_inj] at h
    by_cases hd : pyIsDigit c0 = true
    · rw [if_pos hd] at h
      exact ⟨c0, cs0, rfl, Or.inl ⟨hd, h.symm⟩⟩
    · rw [if_neg hd] at h
      exact ⟨c0, cs0, rfl, Or.inr ⟨Bool.not_eq_true _ |>.mp hd, h.symm⟩⟩

/-- C9 amended: the result's first character is never a digit (a leading
digit is always prefixed with n_); and applying python_identifier twice
yields the same result as once for every input whose first result is
unchanged by strip — in general idempotence fails, because deleting
bracket characters can expose interior tab/newline whitespace at the ends
which only the second application strips. -/
theorem python_identifier_amended :
    (∀ (s r : List Char), pythonIdentifier s = some r →
       ∀ (c : Char) (cs : List Char), r = c :: cs → pyIsDigit c = false) ∧
    (∀ (s r : List Char), pythonIdentifier s = some r → pyStrip r = r →
       pythonIdentifier r = some r) := by
  constructor
  · intro s r hsr c cs hr
    obtain ⟨c0, cs0, hcore, hcase⟩ := pythonIdentifier_eq_some hsr
    rcases hcase with ⟨hd, hre⟩ | ⟨hd, hre⟩
    · rw [hre] at hr
      simp only [List.cons.injEq] at hr
      obtain ⟨h1, -⟩ := hr
      rw [← h1]
      rfl
    · rw [hre] at hr
      simp only [List.cons.injEq] at hr
      obtain ⟨h1, -⟩ := hr
      rw [← h1]
      exact hd
  · intro s r hsr hstrip
    obtain ⟨c0, cs0, hcore, hcase⟩ := pythonIdentifier_eq_some hsr
    have hcleancore : ∀ x ∈ pyIdentCore s, NotSpecialP x ∧ pyLower x = x :=
      fun x hx => clean_of_mem_pyIdentCore hx
    rcases hcase with ⟨hd, hre⟩ | ⟨hd, hre⟩
    · have hcleanr : ∀ x ∈ r, NotSpecialP x ∧ pyLower x = x := by
        intro x hx
        rw [hre] at hx
        rcases List.mem_cons.mp hx with rfl | hx1
        · exact ⟨by decide, by decide⟩
        rcases List.mem_cons.mp hx1 with rfl | hx2
        · exact ⟨by decide, by decide⟩
        · exact hcleancore x (by rw [hcore]; exact hx2)
      exact pythonIdentifier_fixed (pyIdentCore_fixed hstrip hcleanr) hre rfl
    · have hcleanr : ∀ x ∈ r, NotSpecialP x ∧ pyLower x = x := by
        intro x hx
        rw [hre] at hx
        exact hcleancore x (by rw [hcore]; exact hx)
      exact pythonIdentifier_fixed (pyIdentCore_fixed hstrip hcleanr) hre hd

/-- Witness for C9 amended: both parts applied at concrete inputs. -/
theorem python_identifier_amended_witness :
    pyIsDigit 'n' = false ∧ pythonIdentifier ['a', 'b'] = some ['a', 'b'] := by
  constructor
  · exact python_identifier_amended.1 ['3', 'x'] ['n', '_', '3', 'x'] (by decide)
      'n' ['_', '3', 'x'] rfl
  · exact python_identifier_amended.2 ['a', 'b'] ['a', 'b'] (by decide) (by decide)

end Sparcur
